import Mathlib

/-!
Verification development for the suitcase-mongo embedded serializer
(`suitcase/mongo_embedded/__init__.py`).

The Python source is shallowly embedded: the stateful `Serializer` and
`Embedder` objects become explicit state records transformed by pure
functions, Python dicts become insertion-ordered association lists,
pymongo collections become lists of typed documents, and Python
exceptions become explicit error values threaded next to the resulting
state (an operation that raises returns `some err` together with the
state as mutated up to the raise point).  The external BSON encoder is
abstracted by storing each document's encoded byte length on the
document itself (`Doc.bsonSize`); nothing in the repository inspects the
encoding beyond its length.
-/

set_option autoImplicit false

namespace SuitcaseMongo

/-! ## Association-list helpers (Python `dict` / `defaultdict` semantics)

Python dicts preserve insertion order: assigning an existing key keeps
its position, a new key is appended at the end.  `alGet` is `dict.get`,
`alGetD` is `defaultdict` lookup with a default, `alSet` is item
assignment. -/

def alGet {α : Type} (l : List (String × α)) (k : String) : Option α :=
  match l with
  | [] => none
  | (k1, v1) :: rest => if k1 = k then some v1 else alGet rest k

def alGetD {α : Type} (l : List (String × α)) (k : String) (d : α) : α :=
  match alGet l k with
  | some v => v
  | none => d

def alSet {α : Type} (l : List (String × α)) (k : String) (v : α) :
    List (String × α) :=
  match l with
  | [] => [(k, v)]
  | (k1, v1) :: rest => if k1 = k then (k, v) :: rest else (k1, v1) :: alSet rest k v

/-- Sum of the values of an association list, as in
`sum(counter.values())`. -/
def alSum (l : List (String × Nat)) : Nat :=
  match l with
  | [] => 0
  | (_, v) :: rest => v + alSum rest

/-! ## Documents at the ingestion boundary

A bluesky event/datum document is a dict.  Its values are either plain
scalars (opaque here, `DVal.leaf`) or inner dicts of scalars
(`DVal.table`, the shape of the `data` / `timestamps` / `filled` /
`datum_kwargs` fields).  `bsonSize` models `len(bson.BSON.encode(doc))`
computed by the external bson library. -/

inductive DVal : Type where
  | leaf (v : String)
  | table (kvs : List (String × String))
  deriving DecidableEq, Repr

/-- Whether a document value is an inner dict (the shape `.items()`
requires). -/
def DVal.isTable : DVal → Bool
  | .leaf _ => false
  | .table _ => true

structure Doc : Type where
  entries : List (String × DVal)
  bsonSize : Nat
  deriving DecidableEq, Repr

/-- Python exception outcomes that the embedded code can raise.  A
worker exception stored in `Serializer._worker_error` is re-raised as
`RuntimeError("Worker exception: ") from cause`; `workerException`
carries that original cause. -/
inductive PyErr : Type where
  | workerException (cause : String)
  | frozenError
  | twoStartsError
  | assertionError
  | keyError
  | typeError
  | attributeError
  | runNotFound
  | ioError
  deriving DecidableEq, Repr

/-! ## Page Buffer (`Embedder`)

`Embedder._embedder` maps a stream identifier to a partially built
page.  A page's fields are classified by the fixed key sets configured
in `Embedder.__init__`: array-role keys hold lists of appended values,
dataframe-role keys hold per-inner-key lists, every other key holds the
latest scalar value (overwrite semantics).  The three roles are
disjoint for both configurations, so they are kept in three components
of `PageContent`. -/

structure PageContent : Type where
  arrays : List (String × List DVal) := []
  frames : List (String × List (String × List String)) := []
  scalars : List (String × DVal) := []
  deriving DecidableEq, Repr

structure Embedder : Type where
  embedder : List (String × PageContent)
  current_size : Nat
  stream_size : List (String × Nat)
  max_size : Nat
  array_keys : List String
  dataframe_keys : List String
  stream_id_key : String
  deriving DecidableEq, Repr

/-- Append the inner lists of one dataframe-role field
(`for inner_key, inner_value in doc[key].items(): ...append(...)`). -/
def frameAppend (fr : List (String × List String)) :
    List (String × String) → List (String × List String)
  | [] => fr
  | (ik, iv) :: rest => frameAppend (alSet fr ik (alGetD fr ik [] ++ [iv])) rest

/-- The `for key, value in doc.items()` loop body of `Embedder.insert`,
folded over the document's entries.  `sid` is `doc[self._stream_id_key]`
(constant across the loop).  A dataframe-role key whose value is not an
inner dict makes Python raise (`.items()` on a non-dict); the error is
returned explicitly.  Bluesky validation (out of scope, §1 of the spec)
keeps that branch unreachable in the pipeline. -/
def insertLoop (arrayKeys dataframeKeys : List String) (sid : String)
    (emb : List (String × PageContent)) :
    List (String × DVal) → Except PyErr (List (String × PageContent))
  | [] => .ok emb
  | (key, value) :: rest =>
    if key ∈ arrayKeys then
      let page := alGetD emb sid {}
      let page := { page with
        arrays := alSet page.arrays key (alGetD page.arrays key [] ++ [value]) }
      insertLoop arrayKeys dataframeKeys sid (alSet emb sid page) rest
    else if key ∈ dataframeKeys then
      match value with
      | .table kvs =>
        let page := alGetD emb sid {}
        let page := { page with
          frames := alSet page.frames key (frameAppend (alGetD page.frames key []) kvs) }
        insertLoop arrayKeys dataframeKeys sid (alSet emb sid page) rest
      | .leaf _ => .error .attributeError
    else
      let page := alGetD emb sid {}
      let page := { page with scalars := alSet page.scalars key value }
      insertLoop arrayKeys dataframeKeys sid (alSet emb sid page) rest

/-- `Embedder.insert`.  Computes the document's serialized size; if
`current_size + doc_size` exceeds `max_size` the document is returned
unconsumed with the state untouched.  Otherwise the entries are merged
into the stream's page and both size counters grow by `doc_size`.  A
document without the stream-identifier key makes Python raise a
`KeyError`; that (and a partially mutated page dict on a raise inside
the loop, unreachable for validated documents) is the only divergence
from a normal return. -/
def Embedder.insert (e : Embedder) (doc : Doc) :
    Except PyErr (Option Doc × Embedder) :=
  let doc_size := doc.bsonSize
  if e.current_size + doc_size > e.max_size then
    .ok (some doc, e)
  else
    match alGet doc.entries e.stream_id_key with
    | some (.leaf sid) =>
      match insertLoop e.array_keys e.dataframe_keys sid e.embedder doc.entries with
      | .error err => .error err
      | .ok emb1 =>
        .ok (none, { e with
          embedder := emb1,
          current_size := e.current_size + doc_size,
          stream_size := alSet e.stream_size sid (alGetD e.stream_size sid 0 + doc_size) })
    | _ => .error .keyError

/-- `Embedder.dump`: hand the whole buffer dict and a copy of the
per-stream sizes to the caller and start from fresh empty ones. -/
def Embedder.dump (e : Embedder) :
    (List (String × PageContent) × List (String × Nat)) × Embedder :=
  ((e.embedder, e.stream_size),
   { e with embedder := [], stream_size := [], current_size := 0 })

/-- `Embedder.empty`: `not self.current_size`. -/
def Embedder.empty (e : Embedder) : Bool :=
  e.current_size == 0

/-- The state of `Embedder('event', m)` right after `__init__` (for a
`max_size` accepted by the range check there). -/
def eventEmbedderInit (m : Nat) : Embedder :=
  { embedder := [], current_size := 0, stream_size := [], max_size := m,
    array_keys := ["seq_num", "time", "uid"],
    dataframe_keys := ["data", "timestamps", "filled"],
    stream_id_key := "descriptor" }

/-- The state of `Embedder('datum', m)` right after `__init__`. -/
def datumEmbedderInit (m : Nat) : Embedder :=
  { embedder := [], current_size := 0, stream_size := [], max_size := m,
    array_keys := ["datum_id"],
    dataframe_keys := ["datum_kwargs"],
    stream_id_key := "resource" }

/-! ## Page Writer (`_updateone_eventpage` / `_updateone_datumpage`)

The event (resp. datum) collection of the volatile store holds page
documents.  `MPage.stream` is the page's `descriptor` (event pages) or
`resource` (datum pages) field; `content` gathers the pushed arrays.
An `UpdateOne` with filter
`{stream-key: id, 'size': {'$lt': PAGE_SIZE}}` and `upsert=True`
updates the first matching document in the collection, or appends a new
document seeded from the filter's equality field and from the update
operators applied to an absent document (`$push` creates the arrays,
`$inc` starts `size` from 0, `$min`/`$max` set the index fields). -/

structure MPage : Type where
  stream : String
  size : Nat
  first_index : Int
  last_index : Int
  content : PageContent
  deriving DecidableEq, Repr

/-- A flushed per-stream batch as handed to the page writer: the stream
identifier (the dict key of the dump), the accumulated page content,
and the accumulated byte size (`dump_sizes[stream]`). -/
structure PageBatch : Type where
  stream : String
  content : PageContent
  size : Nat
  deriving DecidableEq, Repr

/-- `$push` of the update document of `_updateone_eventpage` onto an
existing page: the hard-coded `uid` / `time` / `seq_num` arrays plus
the `data.*` / `timestamps.*` / `filled.*` inner arrays. -/
def pushEventContent (old pc : PageContent) : PageContent :=
  let pushArr := fun (a : List (String × List DVal)) (k : String) =>
    alSet a k (alGetD a k [] ++ alGetD pc.arrays k [])
  let pushFrame := fun (f : List (String × List (String × List String))) (k : String) =>
    alSet f k (List.foldl
      (fun (fr : List (String × List String)) (kv : String × List String) =>
        alSet fr kv.1 (alGetD fr kv.1 [] ++ kv.2))
      (alGetD f k []) (alGetD pc.frames k []))
  { old with
    arrays := pushArr (pushArr (pushArr old.arrays "uid") "time") "seq_num",
    frames := pushFrame (pushFrame (pushFrame old.frames "data") "timestamps") "filled" }

/-- `$push` of the update document of `_updateone_datumpage`:
the `datum_id` array plus the `datum_kwargs.*` inner arrays. -/
def pushDatumContent (old pc : PageContent) : PageContent :=
  { old with
    arrays := alSet old.arrays "datum_id"
      (alGetD old.arrays "datum_id" [] ++ alGetD pc.arrays "datum_id" []),
    frames := alSet old.frames "datum_kwargs"
      (List.foldl
        (fun (fr : List (String × List String)) (kv : String × List String) =>
          alSet fr kv.1 (alGetD fr kv.1 [] ++ kv.2))
        (alGetD old.frames "datum_kwargs" []) (alGetD pc.frames "datum_kwargs" [])) }

/-- Apply the constructed `UpdateOne` to a page collection: update the
first open page of the stream (`size < PAGE_SIZE`), or upsert a new
page document at the end.  `push` is the `$push` document, `sz` the
`$inc` amount, `minv`/`maxv` the `$min first_index` / `$max last_index`
arguments. -/
def applyPageUpdate (pageSize : Nat) (sid : String)
    (push : PageContent → PageContent) (pc : PageContent) (sz : Nat)
    (minv maxv : Int) : List MPage → List MPage
  | [] => [{ stream := sid, size := sz, first_index := minv, last_index := maxv,
             content := push {} }]
  | p :: ps =>
    if p.stream = sid ∧ p.size < pageSize then
      { p with size := p.size + sz,
               first_index := min p.first_index minv,
               last_index := max p.last_index maxv,
               content := push p.content } :: ps
    else
      p :: applyPageUpdate pageSize sid push pc sz minv maxv ps

/-- `_updateone_eventpage(descriptor_id, event_page, size)` together
with its application to the event collection: the per-stream counter
`self._event_count[descriptor_id]` advances by
`count = len(event_page['seq_num'])`, and the update carries
`$min first_index (counter - count)` and `$max last_index (counter - 1)`
computed from the post-advance counter. -/
def updateoneEventpage (pageSize : Nat) (counters : List (String × Nat))
    (descriptor_id : String) (event_page : PageContent) (size : Nat)
    (coll : List MPage) : List (String × Nat) × List MPage :=
  let count := (alGetD event_page.arrays "seq_num" []).length
  let c1 := alGetD counters descriptor_id 0 + count
  (alSet counters descriptor_id c1,
   applyPageUpdate pageSize descriptor_id
     (fun old => pushEventContent old event_page) event_page size
     ((c1 : Int) - (count : Int)) ((c1 : Int) - 1) coll)

/-- `_updateone_datumpage(resource_id, datum_page, size)` with its
application to the datum collection; `count = len(datum_page['datum_id'])`. -/
def updateoneDatumpage (pageSize : Nat) (counters : List (String × Nat))
    (resource_id : String) (datum_page : PageContent) (size : Nat)
    (coll : List MPage) : List (String × Nat) × List MPage :=
  let count := (alGetD datum_page.arrays "datum_id" []).length
  let c1 := alGetD counters resource_id 0 + count
  (alSet counters resource_id c1,
   applyPageUpdate pageSize resource_id
     (fun old => pushDatumContent old datum_page) datum_page size
     ((c1 : Int) - (count : Int)) ((c1 : Int) - 1) coll)

/-- Number of documents a batch contributes, as computed by
`_updateone_eventpage`: `len(event_page['seq_num'])`. -/
def eventBatchCount (b : PageBatch) : Nat :=
  (alGetD b.content.arrays "seq_num" []).length

/-- Number of documents a batch contributes, as computed by
`_updateone_datumpage`: `len(datum_page['datum_id'])`. -/
def datumBatchCount (b : PageBatch) : Nat :=
  (alGetD b.content.arrays "datum_id" []).length

/-- One page-writer step of the event pipeline (counter advance plus
collection update) for one flushed batch. -/
def stepEventBatch (pageSize : Nat)
    (st : List (String × Nat) × List MPage) (b : PageBatch) :
    List (String × Nat) × List MPage :=
  updateoneEventpage pageSize st.1 b.stream b.content b.size st.2

def stepDatumBatch (pageSize : Nat)
    (st : List (String × Nat) × List MPage) (b : PageBatch) :
    List (String × Nat) × List MPage :=
  updateoneDatumpage pageSize st.1 b.stream b.content b.size st.2

/-- All page-writer batches of a run applied in order, starting from
the initial zero counters and the empty event collection. -/
def runEventBatches (pageSize : Nat) (bs : List PageBatch) :
    List (String × Nat) × List MPage :=
  bs.foldl (stepEventBatch pageSize) ([], [])

def runDatumBatches (pageSize : Nat) (bs : List PageBatch) :
    List (String × Nat) × List MPage :=
  bs.foldl (stepDatumBatch pageSize) ([], [])

/-- Total number of documents the batches insert for stream `s`. -/
def streamTotal (count : PageBatch → Nat) (bs : List PageBatch) (s : String) : Nat :=
  match bs with
  | [] => 0
  | b :: rest =>
    (if b.stream = s then count b else 0) + streamTotal count rest s

/-- The pages of one stream, in collection order
(`{'descriptor': s}` resp. `{'resource': s}` filter). -/
def streamPages (s : String) (coll : List MPage) : List MPage :=
  coll.filter (fun p => p.stream = s)

/-- The `[first_index, last_index]` ranges of a page list tile the
half-open interval `[lo, hi)` exactly, in list order. -/
def covers : List MPage → Int → Int → Prop
  | [], lo, hi => lo = hi
  | p :: ps, lo, hi =>
    p.first_index = lo ∧ p.first_index ≤ p.last_index ∧ covers ps (p.last_index + 1) hi

/-- Every page before the last one is full ("closed"): only the last
page of a stream can still match the `size < PAGE_SIZE` filter. -/
def closedInit (pageSize : Nat) : List MPage → Prop
  | [] => True
  | [_] => True
  | p :: q :: rest => ¬ p.size < pageSize ∧ closedInit pageSize (q :: rest)

/-! ## The document store (volatile / permanent databases)

Three collections: `header`, `event`, `datum`.  A header document is
created by the `$push`-with-upsert of `_insert_header`: it holds the
`run_id` the upsert filter seeded plus named fields that are either
arrays of pushed documents or scalar counts written by `_set_header` /
the count aggregator.  Pushed documents (`BDoc`) expose the `uid` the
run reconstruction reads from descriptors and resources; their other
content is opaque (`payload`).  `BDoc.null` is Python's `None` (pushed
for the stop document of a run that never received one).  The
store-assigned `_id` field is not modelled: every read in the source
projects it away (`{'_id': False}`) and `_insert_run` deletes it again
after `insert_one` mutates the inserted dict. -/

inductive BDoc : Type where
  | null
  | mk (uid : String) (payload : String)
  deriving DecidableEq, Repr

/-- `doc['uid']` on a pushed document.  On `None` Python would raise;
validated pipelines never reach that case (only the stop push can be
`None`, and `_get_run` never reads `uid` from the stop field). -/
def BDoc.uidD : BDoc → String
  | .null => ""
  | .mk uid _ => uid

inductive HVal : Type where
  | docs (l : List BDoc)
  | num (n : Nat)
  deriving DecidableEq, Repr

structure HeaderDoc : Type where
  run_id : Option String
  fields : List (String × HVal)
  deriving DecidableEq, Repr

structure DB : Type where
  header : List HeaderDoc
  event : List MPage
  datum : List MPage
  deriving DecidableEq, Repr

/-- `find_one({'run_id': uid}, {'_id': False})`: the first header
document whose `run_id` equals `uid`. -/
def findHeader (db : DB) (uid : Option String) : Option HeaderDoc :=
  db.header.find? (fun h => h.run_id = uid)

/-- `$push {name: d}` on a header document's fields.  Pushing onto a
field that `_set_header` turned into a scalar would be rejected by the
store; the serializer never pushes onto a count field, so that case is
left as the identity. -/
def pushHeaderField (fs : List (String × HVal)) (name : String) (d : BDoc) :
    List (String × HVal) :=
  match alGet fs name with
  | none => fs ++ [(name, .docs [d])]
  | some (.docs l) => alSet fs name (.docs (l ++ [d]))
  | some (.num _) => fs

/-- `_insert_header(name, doc)`:
`header.update_one({'run_id': run_uid}, {'$push': {name: doc}}, upsert=True)`.
The first matching header is updated; with no match the upsert creates
`{'run_id': run_uid, name: [doc]}` (filter equality field plus the
pushed array). -/
def insertHeaderDoc (db : DB) (uid : Option String) (name : String) (d : BDoc) : DB :=
  { db with header :=
      match insertHeaderGo db.header with
      | some hs => hs
      | none => db.header ++ [{ run_id := uid, fields := [(name, .docs [d])] }] }
where
  insertHeaderGo : List HeaderDoc → Option (List HeaderDoc)
    | [] => none
    | h :: rest =>
      if h.run_id = uid then
        some ({ h with fields := pushHeaderField h.fields name d } :: rest)
      else
        match insertHeaderGo rest with
        | some rest1 => some (h :: rest1)
        | none => none

/-- `_set_header(name, n)`:
`header.update_one({'run_id': run_uid}, {'$set': {name: n}})` — no
upsert, so with no matching header nothing happens. -/
def setHeaderField (db : DB) (uid : Option String) (name : String) (n : Nat) : DB :=
  { db with header := setHeaderGo db.header }
where
  setHeaderGo : List HeaderDoc → List HeaderDoc
    | [] => []
    | h :: rest =>
      if h.run_id = uid then { h with fields := alSet h.fields name (.num n) } :: rest
      else h :: setHeaderGo rest

/-- One document of the reconstructed run payload, tagged with the
collection name it came from / goes to. -/
inductive RunEntry : Type where
  | header (h : HeaderDoc)
  | event (p : MPage)
  | datum (p : MPage)
  deriving DecidableEq, Repr

/-- `_get_run(db, run_uid)`: header first, then for each descriptor
listed in the header every event page with that descriptor, then for
each resource every datum page with that resource.  A missing header
raises; a header whose `descriptors`/`resources` field is a scalar
would make the Python `for` raise, returned here as a `typeError`. -/
def getRun (db : DB) (uid : Option String) : Except PyErr (List RunEntry) := do
  match findHeader db uid with
  | none => .error .runNotFound
  | some hdr =>
    let events ← match alGet hdr.fields "descriptors" with
      | none => .ok []
      | some (.docs ds) =>
        .ok (ds.flatMap (fun d =>
          (db.event.filter (fun p => p.stream = d.uidD)).map RunEntry.event))
      | some (.num _) => .error .typeError
    let datums ← match alGet hdr.fields "resources" with
      | none => .ok []
      | some (.docs rs) =>
        .ok (rs.flatMap (fun r =>
          (db.datum.filter (fun p => p.stream = r.uidD)).map RunEntry.datum))
      | some (.num _) => .error .typeError
    .ok (RunEntry.header hdr :: (events ++ datums))

/-- `_insert_run(db, run)`: append every document of the run payload to
its collection, in order. -/
def insertRun (db : DB) (run : List RunEntry) : DB :=
  run.foldl
    (fun acc e =>
      match e with
      | .header h => { acc with header := acc.header ++ [h] }
      | .event p => { acc with event := acc.event ++ [p] }
      | .datum p => { acc with datum := acc.datum ++ [p] })
    db

/-- `_delete_run(db, run_uid)`: remove the events of every descriptor
listed in the header, the datum of every resource, then every header
with the run id.  (`remove` deletes all matching documents.) -/
def deleteRun (db : DB) (uid : Option String) : Except PyErr DB := do
  match findHeader db uid with
  | none => .error .runNotFound
  | some hdr =>
    let ev ← match alGet hdr.fields "descriptors" with
      | none => .ok db.event
      | some (.docs ds) =>
        .ok (db.event.filter (fun p => ¬ ds.any (fun d => p.stream = d.uidD)))
      | some (.num _) => .error .typeError
    let da ← match alGet hdr.fields "resources" with
      | none => .ok db.datum
      | some (.docs rs) =>
        .ok (db.datum.filter (fun p => ¬ rs.any (fun r => p.stream = r.uidD)))
      | some (.num _) => .error .typeError
    .ok { header := db.header.filter (fun h => ¬ h.run_id = uid),
          event := ev, datum := da }

/-- The copy-verify-delete tail of `freeze` (source lines 348-358):
reconstruct the run from the volatile store, copy it into the permanent
store, reconstruct from the permanent store, and either raise an
`IOError` on a field-for-field mismatch (volatile untouched) or delete
the run from the volatile store.  Returns the raised error (if any)
together with the volatile and permanent stores as they stand when the
call returns or raises. -/
def freezeCopy (vol perm : DB) (uid : Option String) :
    Option PyErr × DB × DB :=
  match getRun vol uid with
  | .error e => (some e, vol, perm)
  | .ok volatile_run =>
    let perm1 := insertRun perm volatile_run
    match getRun perm1 uid with
    | .error e => (some e, vol, perm1)
    | .ok permanent_run =>
      if volatile_run ≠ permanent_run then
        (some .ioError, vol, perm1)
      else
        match deleteRun vol uid with
        | .error e => (some e, vol, perm1)
        | .ok vol1 => (none, vol1, perm1)

/-- Decides whether the copy step of `freeze` reaches the comparison
and finds the two reconstructions unequal. -/
def freezeMismatch (vol perm : DB) (uid : Option String) : Bool :=
  match getRun vol uid with
  | .error _ => false
  | .ok volatile_run =>
    match getRun (insertRun perm volatile_run) uid with
    | .error _ => false
    | .ok permanent_run => volatile_run ≠ permanent_run

/-! ## Serializer state and handlers

The `Serializer` object state, restricted to the fields its behaviour
depends on.  Thread interleavings are not modelled: each function below
is the sequential effect of one call (or of one worker loop body) on
the shared state.  In `freeze`, the sentinel pushes and the executor
shutdowns only synchronise with the worker threads, so the model takes
the post-drain queue and buffer contents as the values of the state
fields. -/

structure SState : Type where
  frozen : Bool
  start_found : Bool
  run_uid : Option String
  worker_error : Option String
  stop_doc : Option BDoc
  event_queue : List Doc
  datum_queue : List Doc
  event_embedder : Embedder
  datum_embedder : Embedder
  event_count : List (String × Nat)
  datum_count : List (String × Nat)
  db_event_count : List (String × Nat)
  db_datum_count : List (String × Nat)
  page_size : Nat
  volatile : DB
  permanent : DB
  deriving DecidableEq, Repr

/-- `Serializer.start`: `_check_start` raises on a second start
document before anything is touched; otherwise record the run id and
push the start document onto the `start`, `event_count` and
`datum_count` header fields. -/
def startHandler (s : SState) (doc : BDoc) : Option PyErr × SState :=
  if s.start_found then
    (some .twoStartsError, s)
  else
    let s1 := { s with start_found := true, run_uid := some doc.uidD }
    let v1 := insertHeaderDoc s1.volatile s1.run_uid "start" doc
    let v2 := insertHeaderDoc v1 s1.run_uid "event_count" doc
    let v3 := insertHeaderDoc v2 s1.run_uid "datum_count" doc
    (none, { s1 with volatile := v3 })

/-- `Serializer.descriptor` / `Serializer.resource`: append into the
header. -/
def descriptorHandler (s : SState) (doc : BDoc) : Option PyErr × SState :=
  (none, { s with volatile := insertHeaderDoc s.volatile s.run_uid "descriptors" doc })

def resourceHandler (s : SState) (doc : BDoc) : Option PyErr × SState :=
  (none, { s with volatile := insertHeaderDoc s.volatile s.run_uid "resources" doc })

/-- `Serializer.event_page` (source line 303):
`self._bulkwrite_event({doc['descriptor']: doc})`.  `_bulkwrite_event`
is declared as `_bulkwrite_event(self, event_buffer, dump_sizes)`, so
this call is missing the required `dump_sizes` argument: Python
evaluates `doc['descriptor']` (a `KeyError` if absent) and then raises
a `TypeError` at the call itself, before any operation is built or
written.  The state is returned untouched. -/
def eventPageHandler (s : SState) (doc : Doc) : Option PyErr × SState :=
  match alGet doc.entries "descriptor" with
  | none => (some .keyError, s)
  | some _ => (some .typeError, s)

/-- `Serializer.datum_page` (source line 307): same missing
`dump_sizes` argument in `self._bulkwrite_datum({doc['resource']: doc})`. -/
def datumPageHandler (s : SState) (doc : Doc) : Option PyErr × SState :=
  match alGet doc.entries "resource" with
  | none => (some .keyError, s)
  | some _ => (some .typeError, s)

/-- `Serializer.freeze(run_uid)` as a sequential state transition:
mark frozen, (sentinels and joins drain the workers,) write the final
authoritative totals into the header, re-raise a sticky worker error,
assert queues and page buffers empty, push the stop document, then run
the copy-verify-delete step. -/
def freeze (s : SState) (uid : Option String) : Option PyErr × SState :=
  let s1 := { s with frozen := true }
  let v1 := setHeaderField s1.volatile s1.run_uid "event_count" (alSum s1.event_count)
  let v2 := setHeaderField v1 s1.run_uid "datum_count" (alSum s1.datum_count)
  let s2 := { s1 with volatile := v2 }
  match s2.worker_error with
  | some w => (some (.workerException w), s2)
  | none =>
    if s2.event_queue.isEmpty ∧ s2.datum_queue.isEmpty ∧
        s2.event_embedder.empty ∧ s2.datum_embedder.empty then
      let stopPush := match s2.stop_doc with
        | some d => d
        | none => BDoc.null
      let s3 := { s2 with volatile := insertHeaderDoc s2.volatile s2.run_uid "stop" stopPush }
      let r := freezeCopy s3.volatile s3.permanent uid
      (r.1, { s3 with volatile := r.2.1, permanent := r.2.2 })
    else
      (some .assertionError, s2)

/-- The volatile store as `freeze` has prepared it when the
copy-verify step starts: final count totals written, stop document
pushed. -/
def freezeVolPrepared (s : SState) : DB :=
  let v1 := setHeaderField s.volatile s.run_uid "event_count" (alSum s.event_count)
  let v2 := setHeaderField v1 s.run_uid "datum_count" (alSum s.datum_count)
  insertHeaderDoc v2 s.run_uid "stop"
    (match s.stop_doc with
     | some d => d
     | none => BDoc.null)

/-- The typed ingestion-boundary calls dispatched by
`event_model.DocumentRouter` from `(name, doc)` pairs. -/
inductive InDoc : Type where
  | start (d : BDoc)
  | stop (d : BDoc)
  | descriptor (d : BDoc)
  | resource (d : BDoc)
  | event (d : Doc)
  | datum (d : Doc)
  | event_page (d : Doc)
  | datum_page (d : Doc)
  deriving DecidableEq, Repr

/-- The per-name handler dispatch performed by
`super().__call__(name, doc)`.  `event`/`datum` enqueue (queue
backpressure only delays the call, the sequential model appends);
`stop` records the stop document and runs `close()`, i.e.
`freeze(self._run_uid)`. -/
def dispatch (s : SState) (doc : InDoc) : Option PyErr × SState :=
  match doc with
  | .start d => startHandler s d
  | .stop d =>
    let s1 := { s with stop_doc := some d }
    freeze s1 s1.run_uid
  | .descriptor d => descriptorHandler s d
  | .resource d => resourceHandler s d
  | .event d => (none, { s with event_queue := s.event_queue ++ [d] })
  | .datum d => (none, { s with datum_queue := s.datum_queue ++ [d] })
  | .event_page d => eventPageHandler s d
  | .datum_page d => datumPageHandler s d

/-- `Serializer.__call__`: re-raise a recorded sticky worker error as
`RuntimeError(...) from self._worker_error`, refuse documents once
frozen, otherwise dispatch to the handler. -/
def serializerCall (s : SState) (doc : InDoc) : Option PyErr × SState :=
  match s.worker_error with
  | some w => (some (.workerException w), s)
  | none =>
    if s.frozen then (some .frozenError, s)
    else dispatch s doc

/-- The flush block of `_datum_worker` (source lines 240-245).  When
the datum page buffer is not empty the worker dumps it and then
executes `self._bulkwrite_datum(datum_dump. dump_sizes)` — with a `.`
where a `,` belongs, this evaluates the attribute `dump_sizes` on the
dumped dict, which raises an `AttributeError`; no bulk write reaches
the store and the per-stream datum insert counters are not updated. -/
def datumWorkerFlush (s : SState) : Option PyErr × SState :=
  if s.datum_embedder.empty then
    (none, s)
  else
    let d := s.datum_embedder.dump
    (some .attributeError, { s with datum_embedder := d.2 })

/-! ## Count Aggregator (`_count_worker`)

The loop keeps `last_event_count` / `last_datum_count`, initially fresh
empty dicts.  After the first header update the source executes
`last_event_count = self._db_event_count` (and likewise for datum):
this binds the *same dict object*, not a copy, so from then on the wake
condition compares the live counters with themselves.  `LastCounts`
captures what the two local names can refer to. -/

inductive LastCounts : Type where
  | fresh
  | aliased
  deriving DecidableEq, Repr

/-- One wake of the count-worker loop, given the per-stream insert
counters at that moment: evaluates the increase condition and, when it
holds, issues the single header `$set` update merging the latest count
fields and rebinds the `last_*` names to the live dicts.  Returns
whether a header update was issued. -/
def countWake (last : LastCounts) (dbEvent dbDatum : List (String × Nat)) :
    Bool × LastCounts :=
  let lastEvSum := match last with
    | .fresh => 0
    | .aliased => alSum dbEvent
  let lastDaSum := match last with
    | .fresh => 0
    | .aliased => alSum dbDatum
  if alSum dbEvent > lastEvSum ∨ alSum dbDatum > lastDaSum then
    (true, .aliased)
  else
    (false, last)

/-- A run of count-worker wakes over the successive counter contents
observed at each wake, collecting which wakes issued a header update. -/
def countWakes (last : LastCounts) :
    List (List (String × Nat) × List (String × Nat)) → List Bool
  | [] => []
  | (ev, da) :: rest =>
    let r := countWake last ev da
    r.1 :: countWakes r.2 rest

/-! ## Association-list lemmas -/

theorem alGet_alSet_self {α : Type} (l : List (String × α)) (k : String) (v : α) :
    alGet (alSet l k v) k = some v := by
  induction l with
  | nil => simp [alSet, alGet]
  | cons hd tl ih =>
    obtain ⟨a, b⟩ := hd
    by_cases h : a = k
    · subst h
      simp [alSet, alGet]
    · simp [alSet, alGet, h, ih]

theorem alGetD_alSet_self {α : Type} (l : List (String × α)) (k : String) (v d : α) :
    alGetD (alSet l k v) k d = v := by
  simp [alGetD, alGet_alSet_self]

theorem alGet_alSet_ne {α : Type} (l : List (String × α)) (k k1 : String) (v : α)
    (h : k1 ≠ k) : alGet (alSet l k v) k1 = alGet l k1 := by
  have hk : ¬ k = k1 := fun x => h x.symm
  induction l with
  | nil => simp [alSet, alGet, hk]
  | cons hd tl ih =>
    obtain ⟨a, b⟩ := hd
    by_cases ha : a = k
    · subst ha
      simp [alSet, alGet, hk]
    · simp [alSet, alGet, ha, ih]

theorem alGetD_alSet_ne {α : Type} (l : List (String × α)) (k k1 : String) (v d : α)
    (h : k1 ≠ k) : alGetD (alSet l k v) k1 d = alGetD l k1 d := by
  simp [alGetD, alGet_alSet_ne _ _ _ _ h]

/-! ## Page Buffer theorems (C4, C5, C10) -/

/-- The embedding loop succeeds on any document whose dataframe-role
fields are inner dicts. -/
theorem insertLoop_ok (arrayKeys dataframeKeys : List String) (sid : String) :
    ∀ (entries : List (String × DVal)) (emb : List (String × PageContent)),
    (∀ kv ∈ entries, kv.1 ∈ dataframeKeys → kv.2.isTable = true) →
    ∃ emb1, insertLoop arrayKeys dataframeKeys sid emb entries = .ok emb1 := by
  intro entries
  induction entries with
  | nil => exact fun emb _ => ⟨emb, rfl⟩
  | cons kv rest ih =>
    intro emb hwf
    have hrest := fun x hx => hwf x (List.mem_cons_of_mem _ hx)
    obtain ⟨k, v⟩ := kv
    by_cases ha : k ∈ arrayKeys
    · simp only [insertLoop, if_pos ha]
      exact ih _ hrest
    · by_cases hd : k ∈ dataframeKeys
      · have ht := hwf (k, v) (List.mem_cons_self _ _) hd
        cases v with
        | leaf s => simp [DVal.isTable] at ht
        | table kvs =>
          simp only [insertLoop, if_neg ha, if_pos hd]
          exact ih _ hrest
      · simp only [insertLoop, if_neg ha, if_neg hd]
        exact ih _ hrest

/-- Claim C4: inserting a document that would push `current_size` over
the configured maximum returns the document unconsumed and leaves the
whole buffer state (total size, per-stream sizes, page contents)
unchanged; otherwise the document is consumed, `None` is returned, and
both the total size and the document's stream size grow by the
document's serialized byte size. -/
theorem embedder_insert_backpressure (e : Embedder) (d : Doc) :
    (e.current_size + d.bsonSize > e.max_size → e.insert d = .ok (some d, e)) ∧
    (¬ e.current_size + d.bsonSize > e.max_size →
      ∀ sid, alGet d.entries e.stream_id_key = some (.leaf sid) →
      (∀ kv ∈ d.entries, kv.1 ∈ e.dataframe_keys → kv.2.isTable = true) →
      ∃ e1, e.insert d = .ok (none, e1) ∧
        e1.current_size = e.current_size + d.bsonSize ∧
        alGetD e1.stream_size sid 0 = alGetD e.stream_size sid 0 + d.bsonSize ∧
        (∀ s1, s1 ≠ sid → alGetD e1.stream_size s1 0 = alGetD e.stream_size s1 0) ∧
        e1.max_size = e.max_size) := by
  constructor
  · intro hover
    simp [Embedder.insert, hover]
  · intro hle sid hsid hwf
    obtain ⟨emb1, hloop⟩ :=
      insertLoop_ok e.array_keys e.dataframe_keys sid d.entries e.embedder hwf
    refine ⟨{ e with
        embedder := emb1
        current_size := e.current_size + d.bsonSize
        stream_size := alSet e.stream_size sid (alGetD e.stream_size sid 0 + d.bsonSize) },
      ?_, rfl, ?_, ?_, rfl⟩
    · simp [Embedder.insert, hle, hsid, hloop]
    · exact alGetD_alSet_self _ _ _ _
    · intro s1 hs1
      exact alGetD_alSet_ne _ _ _ _ _ hs1

/-- Witness for C4 at a concrete event document and buffer. -/
theorem embedder_insert_backpressure_witness :
    ((eventEmbedderInit 1000).insert { entries := [], bsonSize := 2000 }
        = .ok (some { entries := [], bsonSize := 2000 }, eventEmbedderInit 1000)) ∧
    ∃ e1, (eventEmbedderInit 1000).insert
        { entries := [("descriptor", .leaf "d1"), ("seq_num", .leaf "1"),
                      ("data", .table [("x", "7")])], bsonSize := 300 }
        = .ok (none, e1) ∧ e1.current_size = 300 := by
  constructor
  · exact (embedder_insert_backpressure (eventEmbedderInit 1000)
      { entries := [], bsonSize := 2000 }).1 (by decide)
  · obtain ⟨e1, h1, h2, -⟩ := (embedder_insert_backpressure (eventEmbedderInit 1000)
      { entries := [("descriptor", .leaf "d1"), ("seq_num", .leaf "1"),
                    ("data", .table [("x", "7")])], bsonSize := 300 }).2
      (by decide) "d1" (by decide) (by decide)
    exact ⟨e1, h1, by simpa using h2⟩

/-- Claim C5: `dump()` returns the pre-dump per-stream page contents
and per-stream sizes and swaps in a completely fresh buffer: afterwards
`empty()` is true, the total and every per-stream size are zero, and
the page-content dict is empty, so no subsequent `insert` can observe
pre-dump state. -/
theorem embedder_dump_isolation (e : Embedder) :
    e.dump = ((e.embedder, e.stream_size),
              { e with embedder := [], stream_size := [], current_size := 0 }) ∧
    e.dump.2.empty = true ∧
    e.dump.2.current_size = 0 ∧
    (∀ k, alGetD e.dump.2.stream_size k 0 = 0) ∧
    e.dump.2.embedder = [] := by
  refine ⟨rfl, rfl, rfl, ?_, rfl⟩
  intro k
  simp [Embedder.dump, alGetD, alGet]

/-- A step of the Page Buffer's lifecycle: one (successful) `insert`
call or one `dump` call. -/
inductive EmStep : Embedder → Embedder → Prop where
  | ins (e : Embedder) (d : Doc) (o : Option Doc) (e1 : Embedder)
      (h : e.insert d = .ok (o, e1)) : EmStep e e1
  | dmp (e : Embedder) : EmStep e e.dump.2

/-- States reachable from a buffer state by any sequence of insert and
dump operations. -/
def EmReachable : Embedder → Embedder → Prop :=
  Relation.ReflTransGen EmStep

theorem insert_ok_max_size {e : Embedder} {d : Doc} {o : Option Doc} {e1 : Embedder}
    (h : e.insert d = .ok (o, e1)) : e1.max_size = e.max_size := by
  by_cases hover : e.current_size + d.bsonSize > e.max_size
  · simp [Embedder.insert, hover] at h
    obtain ⟨-, h2⟩ := h
    subst h2
    rfl
  · rcases hsid : alGet d.entries e.stream_id_key with _ | v
    · simp [Embedder.insert, hover, hsid] at h
    · cases v with
      | table kvs => simp [Embedder.insert, hover, hsid] at h
      | leaf sid =>
        rcases hloop : insertLoop e.array_keys e.dataframe_keys sid e.embedder d.entries
          with err | emb1
        · simp [Embedder.insert, hover, hsid, hloop] at h
        · simp [Embedder.insert, hover, hsid, hloop] at h
          obtain ⟨-, h2⟩ := h
          subst h2
          rfl

theorem EmStep_max_size {e e1 : Embedder} (h : EmStep e e1) :
    e1.max_size = e.max_size := by
  cases h with
  | ins d o e2 hins => exact insert_ok_max_size hins
  | dmp => rfl

theorem EmReachable_max_size {e e1 : Embedder} (h : EmReachable e e1) :
    e1.max_size = e.max_size := by
  induction h with
  | refl => rfl
  | tail _ hstep ih => rw [EmStep_max_size hstep, ih]

/-- Claim C10: a document whose serialized size alone is above the
buffer's configured maximum is returned unconsumed from every state
reachable by insert/dump operations (the empty initial buffer
included): the size check `current_size + doc_size > max_size` can
never pass for it, so a worker that dequeues it can never consume it. -/
theorem embedder_oversized_never_accepted (e e1 : Embedder) (d : Doc)
    (hr : EmReachable e e1) (h : e.max_size < d.bsonSize) :
    e1.insert d = .ok (some d, e1) := by
  have hmax : e1.max_size = e.max_size := EmReachable_max_size hr
  have hover : e1.current_size + d.bsonSize > e1.max_size := by
    rw [hmax]
    omega
  simp [Embedder.insert, hover]

/-- Witness for C10: an oversized document is rejected by the freshly
constructed event buffer and after a dump. -/
theorem embedder_oversized_never_accepted_witness :
    (eventEmbedderInit 1000).insert { entries := [], bsonSize := 1001 }
        = .ok (some { entries := [], bsonSize := 1001 }, eventEmbedderInit 1000) ∧
    ((eventEmbedderInit 1000).dump.2).insert { entries := [], bsonSize := 1001 }
        = .ok (some { entries := [], bsonSize := 1001 }, (eventEmbedderInit 1000).dump.2) := by
  constructor
  · exact embedder_oversized_never_accepted (eventEmbedderInit 1000)
      (eventEmbedderInit 1000) { entries := [], bsonSize := 1001 }
      Relation.ReflTransGen.refl (by decide)
  · exact embedder_oversized_never_accepted (eventEmbedderInit 1000)
      ((eventEmbedderInit 1000).dump.2) { entries := [], bsonSize := 1001 }
      (Relation.ReflTransGen.single (EmStep.dmp _)) (by decide)

/-! ## Concrete example states -/

/-- A healthy mid-run serializer state: one start document accepted,
workers idle with drained queues and empty page buffers. -/
def stBase : SState :=
  { frozen := false
    start_found := true
    run_uid := some "run1"
    worker_error := none
    stop_doc := some (BDoc.mk "stop1" "stop-doc")
    event_queue := []
    datum_queue := []
    event_embedder := eventEmbedderInit 1000000
    datum_embedder := datumEmbedderInit 1000000
    event_count := [("desc1", 2)]
    datum_count := []
    db_event_count := [("count_desc1", 2)]
    db_datum_count := []
    page_size := 5000
    volatile := { header := [{ run_id := some "run1",
                               fields := [("start", .docs [BDoc.mk "s0" "start-doc"])] }],
                  event := [], datum := [] }
    permanent := { header := [], event := [], datum := [] } }

/-- A datum document as it sits on the datum queue. -/
def datumDoc1 : Doc :=
  { entries := [("resource", .leaf "res1"), ("datum_id", .leaf "d1"),
                ("datum_kwargs", .table [("k", "v")])],
    bsonSize := 60 }

/-- The datum page buffer after the worker consumed `datumDoc1`. -/
def datumEmbAfterInsert : Embedder :=
  match (datumEmbedderInit 1000000).insert datumDoc1 with
  | .ok (_, e) => e
  | _ => datumEmbedderInit 1000000

/-- `stBase` with one embedded datum waiting to be flushed. -/
def stDatumPending : SState :=
  { stBase with datum_embedder := datumEmbAfterInsert }

/-! ## Serializer theorems (C6, C7) -/

/-- Claim C6: once a sticky worker error is recorded, every ingestion
call raises an error carrying the original worker exception as its
cause instead of silently dropping the document, and `freeze` also
raises with that same cause (after the drain, before the copy step —
the permanent store is untouched). -/
theorem sticky_worker_error_blocks (s : SState) (w : String) (doc : InDoc)
    (uid : Option String) (h : s.worker_error = some w) :
    serializerCall s doc = (some (.workerException w), s) ∧
    (freeze s uid).1 = some (.workerException w) ∧
    (freeze s uid).2.permanent = s.permanent := by
  refine ⟨?_, ?_, ?_⟩
  · simp [serializerCall, h]
  · simp [freeze, h]
  · simp [freeze, h]

/-- Witness for C6: a concrete state with a recorded worker error. -/
theorem sticky_worker_error_blocks_witness :
    serializerCall { stBase with worker_error := some "bulk write failed" }
        (.event { entries := [], bsonSize := 10 })
      = (some (.workerException "bulk write failed"),
         { stBase with worker_error := some "bulk write failed" }) ∧
    (freeze { stBase with worker_error := some "bulk write failed" } (some "run1")).1
      = some (.workerException "bulk write failed") :=
  ⟨(sticky_worker_error_blocks { stBase with worker_error := some "bulk write failed" }
      "bulk write failed" (.event { entries := [], bsonSize := 10 }) (some "run1") rfl).1,
   (sticky_worker_error_blocks { stBase with worker_error := some "bulk write failed" }
      "bulk write failed" (.event { entries := [], bsonSize := 10 }) (some "run1") rfl).2.1⟩

/-- Claim C7: a second `start` document on a pipeline that has already
accepted one fails with a usage error before any mutation: the run
identifier and the volatile header store are exactly as before. -/
theorem second_start_no_mutation (s : SState) (d : BDoc) (h : s.start_found = true) :
    startHandler s d = (some .twoStartsError, s) ∧
    (startHandler s d).2.run_uid = s.run_uid ∧
    (startHandler s d).2.volatile = s.volatile := by
  have h1 : startHandler s d = (some .twoStartsError, s) := by simp [startHandler, h]
  exact ⟨h1, by rw [h1], by rw [h1]⟩

/-- Witness for C7 at a concrete second start document. -/
theorem second_start_no_mutation_witness :
    startHandler stBase (BDoc.mk "s1" "second-start") = (some .twoStartsError, stBase) ∧
    (startHandler stBase (BDoc.mk "s1" "second-start")).2.volatile = stBase.volatile :=
  ⟨(second_start_no_mutation stBase (BDoc.mk "s1" "second-start") rfl).1,
   (second_start_no_mutation stBase (BDoc.mk "s1" "second-start") rfl).2.2⟩

/-! ## Code-bug evaluations (C3, C8, C9) -/

/-- Claim C3 (code evaluated at the failing input): with a non-empty
datum page buffer, the `_datum_worker` flush block raises an
`AttributeError` at `self._bulkwrite_datum(datum_dump. dump_sizes)`
(source line 242, `.` instead of `,`): no bulk write reaches the
volatile datum collection and the per-stream datum insert counters stay
unchanged. -/
theorem datum_worker_flush_attribute_error :
    stDatumPending.datum_embedder.empty = false ∧
    (datumWorkerFlush stDatumPending).1 = some PyErr.attributeError ∧
    (datumWorkerFlush stDatumPending).2.volatile = stDatumPending.volatile ∧
    (datumWorkerFlush stDatumPending).2.db_datum_count = stDatumPending.db_datum_count := by
  decide

/-- Claim C8 (code evaluated at the failing input): `event_page` and
`datum_page` call `_bulkwrite_event` / `_bulkwrite_datum` without the
required `dump_sizes` argument (source lines 303 and 307), so the call
raises a `TypeError`: nothing is written to the store and the document
is not returned. -/
theorem page_handlers_raise_type_error :
    eventPageHandler stBase
        { entries := [("descriptor", .leaf "desc1"), ("uid", .leaf "u1")], bsonSize := 100 }
      = (some PyErr.typeError, stBase) ∧
    datumPageHandler stBase
        { entries := [("resource", .leaf "res1"), ("datum_id", .leaf "d1")], bsonSize := 100 }
      = (some PyErr.typeError, stBase) := by
  decide

/-- Claim C9 (code evaluated at the failing input): after its first
header update the count worker's `last_*` names alias the live counter
dicts (`last_event_count = self._db_event_count`, source lines
270-271), so on the next wake the totals have strictly increased yet no
header update is issued. -/
theorem count_worker_misses_later_increase :
    countWakes .fresh [([("count_desc1", 1)], []), ([("count_desc1", 2)], [])]
      = [true, false] ∧
    alSum [("count_desc1", 2)] > alSum [("count_desc1", 1)] := by
  decide

/-! ## Page Writer index theorems (C2) -/

theorem applyPageUpdate_ne_nil (pageSize : Nat) (sid : String)
    (push : PageContent → PageContent) (pc : PageContent) (sz : Nat)
    (mn mx : Int) (l : List MPage) :
    applyPageUpdate pageSize sid push pc sz mn mx l ≠ [] := by
  cases l with
  | nil => simp [applyPageUpdate]
  | cons p ps =>
    by_cases h : p.stream = sid ∧ p.size < pageSize
    · simp [applyPageUpdate, h]
    · simp [applyPageUpdate, h]

theorem mem_streamPages {s : String} {coll : List MPage} {p : MPage} :
    p ∈ streamPages s coll ↔ p ∈ coll ∧ p.stream = s := by
  simp [streamPages]

/-- An update for stream `sid` commutes with restriction to stream
`sid`: on the restricted list every page already satisfies the stream
half of the filter. -/
theorem streamPages_applyPageUpdate_self (pageSize : Nat) (sid : String)
    (push : PageContent → PageContent) (pc : PageContent) (sz : Nat)
    (mn mx : Int) :
    ∀ coll : List MPage,
    streamPages sid (applyPageUpdate pageSize sid push pc sz mn mx coll)
      = applyPageUpdate pageSize sid push pc sz mn mx (streamPages sid coll) := by
  intro coll
  induction coll with
  | nil => simp [applyPageUpdate, streamPages]
  | cons p ps ih =>
    simp only [streamPages] at ih
    by_cases hs : p.stream = sid
    · by_cases hsz : p.size < pageSize
      · simp [applyPageUpdate, streamPages, hs, hsz]
      · simp [applyPageUpdate, streamPages, hs, hsz, ih]
    · have hcond : ¬ (p.stream = sid ∧ p.size < pageSize) := fun hc => hs hc.1
      simp [applyPageUpdate, streamPages, hs, hcond, ih]

/-- An update for another stream leaves a stream's page list
untouched. -/
theorem streamPages_applyPageUpdate_other (pageSize : Nat) (sid t : String)
    (hne : sid ≠ t) (push : PageContent → PageContent) (pc : PageContent)
    (sz : Nat) (mn mx : Int) :
    ∀ coll : List MPage,
    streamPages t (applyPageUpdate pageSize sid push pc sz mn mx coll)
      = streamPages t coll := by
  intro coll
  induction coll with
  | nil => simp [applyPageUpdate, streamPages, hne]
  | cons p ps ih =>
    simp only [streamPages] at ih
    have hts : ¬ t = sid := fun h => hne h.symm
    by_cases hcond : p.stream = sid ∧ p.size < pageSize
    · have hpt : ¬ p.stream = t := by
        rw [hcond.1]
        exact hne
      simp [applyPageUpdate, streamPages, hcond, hpt, hne]
    · by_cases hpt : p.stream = t
      · simp [applyPageUpdate, streamPages, hcond, hpt, hts, ih]
      · simp [applyPageUpdate, streamPages, hcond, hpt, hts, ih]

theorem covers_lo_le_hi : ∀ (l : List MPage) (lo hi : Int), covers l lo hi → lo ≤ hi := by
  intro l
  induction l with
  | nil =>
    intro lo hi hc
    exact le_of_eq hc
  | cons p ps ih =>
    intro lo hi hc
    obtain ⟨h1, h2, h3⟩ := hc
    have := ih (p.last_index + 1) hi h3
    omega

theorem covers_bounds : ∀ (l : List MPage) (lo hi : Int), covers l lo hi →
    ∀ p ∈ l, lo ≤ p.first_index ∧ p.first_index ≤ p.last_index ∧ p.last_index < hi := by
  intro l
  induction l with
  | nil => intro lo hi _ p hp; cases hp
  | cons q ps ih =>
    intro lo hi hc p hp
    obtain ⟨h1, h2, h3⟩ := hc
    rcases List.mem_cons.mp hp with rfl | hp1
    · have := covers_lo_le_hi ps (p.last_index + 1) hi h3
      omega
    · have := ih (q.last_index + 1) hi h3 p hp1
      omega

/-- Inside a tiling, every point of `[lo, hi)` is covered by exactly
one page. -/
theorem covers_cover_unique : ∀ (l : List MPage) (lo hi n : Int), covers l lo hi →
    lo ≤ n → n < hi →
    ∃! p : MPage, p ∈ l ∧ p.first_index ≤ n ∧ n ≤ p.last_index := by
  intro l
  induction l with
  | nil =>
    intro lo hi n hc hlo hhi
    have hlohi : lo = hi := hc
    omega
  | cons q ps ih =>
    intro lo hi n hc hlo hhi
    obtain ⟨h1, h2, h3⟩ := hc
    by_cases hn : n ≤ q.last_index
    · refine ⟨q, ⟨List.mem_cons_self _ _, by omega, hn⟩, ?_⟩
      rintro p ⟨hp, hpf, hpl⟩
      rcases List.mem_cons.mp hp with rfl | hp1
      · rfl
      · have := covers_bounds ps (q.last_index + 1) hi h3 p hp1
        omega
    · push_neg at hn
      obtain ⟨p, ⟨hpmem, hpf, hpl⟩, huniq⟩ := ih (q.last_index + 1) hi n h3 (by omega) hhi
      refine ⟨p, ⟨List.mem_cons_of_mem _ hpmem, hpf, hpl⟩, ?_⟩
      rintro r ⟨hr, hrf, hrl⟩
      rcases List.mem_cons.mp hr with rfl | hr1
      · omega
      · exact huniq r ⟨hr1, hrf, hrl⟩

/-- One append-or-create update for a batch of `count ≥ 1` documents
extends a tiling of `[lo, mn)` to a tiling of `[lo, mx + 1)`, keeps all
non-final pages closed, and keeps every page on the stream. -/
theorem applyPageUpdate_covers (pageSize : Nat) (sid : String)
    (push : PageContent → PageContent) (pc : PageContent) (sz : Nat)
    (mn mx : Int) (hlemx : mn ≤ mx) :
    ∀ (l : List MPage) (lo : Int), covers l lo mn → closedInit pageSize l →
    (∀ p ∈ l, p.stream = sid) →
    covers (applyPageUpdate pageSize sid push pc sz mn mx l) lo (mx + 1) ∧
    closedInit pageSize (applyPageUpdate pageSize sid push pc sz mn mx l) ∧
    (∀ p ∈ applyPageUpdate pageSize sid push pc sz mn mx l, p.stream = sid) := by
  intro l
  induction l with
  | nil =>
    intro lo hcov _ _
    have hlo : lo = mn := hcov
    subst hlo
    refine ⟨⟨rfl, hlemx, rfl⟩, trivial, ?_⟩
    intro p hp
    simp [applyPageUpdate] at hp
    rw [hp]
  | cons q ps ih =>
    intro lo hcov hclosed hsid
    have hqs : q.stream = sid := hsid q (List.mem_cons_self _ _)
    obtain ⟨h1, h2, h3⟩ := hcov
    by_cases hsz : q.size < pageSize
    · -- the head page is the (only possible) open page
      have hps : ps = [] := by
        cases ps with
        | nil => rfl
        | cons r rest => exact absurd hclosed.1 (by simp [hsz])
      subst hps
      have hcond : q.stream = sid ∧ q.size < pageSize := ⟨hqs, hsz⟩
      have hlast : q.last_index + 1 = mn := h3
      refine ⟨?_, ?_, ?_⟩
      · simp only [applyPageUpdate, if_pos hcond]
        exact ⟨by simp; omega, by simp; omega, by simp [covers]; omega⟩
      · simp only [applyPageUpdate, if_pos hcond]
        trivial
      · intro p hp
        simp only [applyPageUpdate, if_pos hcond] at hp
        simp at hp
        rw [hp, hqs]
    · have hcond : ¬ (q.stream = sid ∧ q.size < pageSize) := fun hc => hsz hc.2
      have hclosed1 : closedInit pageSize ps := by
        cases ps with
        | nil => trivial
        | cons r rest => exact hclosed.2
      obtain ⟨ihc, ihcl, ihs⟩ := ih (q.last_index + 1) h3 hclosed1
        (fun p hp => hsid p (List.mem_cons_of_mem _ hp))
      refine ⟨?_, ?_, ?_⟩
      · simp only [applyPageUpdate, if_neg hcond]
        exact ⟨h1, h2, ihc⟩
      · simp only [applyPageUpdate, if_neg hcond]
        rcases hne : applyPageUpdate pageSize sid push pc sz mn mx ps with _ | ⟨r, rest⟩
        · exact absurd hne (applyPageUpdate_ne_nil _ _ _ _ _ _ _ _)
        · rw [hne] at ihcl
          exact ⟨hsz, ihcl⟩
      · intro p hp
        simp only [applyPageUpdate, if_neg hcond] at hp
        rcases List.mem_cons.mp hp with rfl | hp1
        · exact hqs
        · exact ihs p hp1

/-- One counter-advance-plus-update step preserves the per-stream
tiling invariant, whichever stream the batch belongs to. -/
theorem updateone_stream_inv (pageSize : Nat) (s : String)
    (counters : List (String × Nat)) (coll : List MPage) (bstream : String)
    (push : PageContent → PageContent) (pc : PageContent) (sz count : Nat)
    (hcount : 1 ≤ count)
    (hcov : covers (streamPages s coll) 0 ((alGetD counters s 0 : Nat) : Int))
    (hclosed : closedInit pageSize (streamPages s coll)) :
    covers
      (streamPages s (applyPageUpdate pageSize bstream push pc sz
        (((alGetD counters bstream 0 + count : Nat) : Int) - (count : Int))
        (((alGetD counters bstream 0 + count : Nat) : Int) - 1) coll))
      0 ((alGetD (alSet counters bstream (alGetD counters bstream 0 + count)) s 0 : Nat) : Int) ∧
    closedInit pageSize
      (streamPages s (applyPageUpdate pageSize bstream push pc sz
        (((alGetD counters bstream 0 + count : Nat) : Int) - (count : Int))
        (((alGetD counters bstream 0 + count : Nat) : Int) - 1) coll)) := by
  by_cases hbs : bstream = s
  · subst hbs
    rw [streamPages_applyPageUpdate_self, alGetD_alSet_self]
    have hmn : ((alGetD counters bstream 0 + count : Nat) : Int) - (count : Int)
        = ((alGetD counters bstream 0 : Nat) : Int) := by
      push_cast
      ring
    rw [hmn]
    have hlemx : ((alGetD counters bstream 0 : Nat) : Int)
        ≤ ((alGetD counters bstream 0 + count : Nat) : Int) - 1 := by
      push_cast
      omega
    have h := applyPageUpdate_covers pageSize bstream push pc sz
      ((alGetD counters bstream 0 : Nat) : Int)
      (((alGetD counters bstream 0 + count : Nat) : Int) - 1) hlemx
      (streamPages bstream coll) 0 hcov hclosed
      (fun p hp => (mem_streamPages.mp hp).2)
    have h1 := h.1
    rw [show (((alGetD counters bstream 0 + count : Nat) : Int) - 1) + 1
        = ((alGetD counters bstream 0 + count : Nat) : Int) from by ring] at h1
    exact ⟨h1, h.2.1⟩
  · rw [streamPages_applyPageUpdate_other pageSize bstream s hbs,
        alGetD_alSet_ne _ _ _ _ _ (fun h => hbs h.symm)]
    exact ⟨hcov, hclosed⟩

/-- The per-stream tiling invariant holds after any sequence of event
page-writer batches. -/
theorem runEventBatches_stream_inv (P : Nat) (s : String) :
    ∀ (bs : List PageBatch) (st : List (String × Nat) × List MPage),
    (∀ b ∈ bs, 1 ≤ eventBatchCount b) →
    covers (streamPages s st.2) 0 ((alGetD st.1 s 0 : Nat) : Int) →
    closedInit P (streamPages s st.2) →
    covers (streamPages s (bs.foldl (stepEventBatch P) st).2) 0
      ((alGetD (bs.foldl (stepEventBatch P) st).1 s 0 : Nat) : Int) ∧
    closedInit P (streamPages s (bs.foldl (stepEventBatch P) st).2) := by
  intro bs
  induction bs with
  | nil =>
    intro st _ hcov hcl
    exact ⟨hcov, hcl⟩
  | cons b rest ih =>
    intro st hcnt hcov hcl
    rw [List.foldl_cons]
    have hstep := updateone_stream_inv P s st.1 st.2 b.stream
      (fun old => pushEventContent old b.content) b.content b.size
      (eventBatchCount b) (hcnt b (List.mem_cons_self _ _)) hcov hcl
    exact ih (stepEventBatch P st b)
      (fun x hx => hcnt x (List.mem_cons_of_mem _ hx)) hstep.1 hstep.2

/-- The per-stream tiling invariant holds after any sequence of datum
page-writer batches. -/
theorem runDatumBatches_stream_inv (P : Nat) (s : String) :
    ∀ (bs : List PageBatch) (st : List (String × Nat) × List MPage),
    (∀ b ∈ bs, 1 ≤ datumBatchCount b) →
    covers (streamPages s st.2) 0 ((alGetD st.1 s 0 : Nat) : Int) →
    closedInit P (streamPages s st.2) →
    covers (streamPages s (bs.foldl (stepDatumBatch P) st).2) 0
      ((alGetD (bs.foldl (stepDatumBatch P) st).1 s 0 : Nat) : Int) ∧
    closedInit P (streamPages s (bs.foldl (stepDatumBatch P) st).2) := by
  intro bs
  induction bs with
  | nil =>
    intro st _ hcov hcl
    exact ⟨hcov, hcl⟩
  | cons b rest ih =>
    intro st hcnt hcov hcl
    rw [List.foldl_cons]
    have hstep := updateone_stream_inv P s st.1 st.2 b.stream
      (fun old => pushDatumContent old b.content) b.content b.size
      (datumBatchCount b) (hcnt b (List.mem_cons_self _ _)) hcov hcl
    exact ih (stepDatumBatch P st b)
      (fun x hx => hcnt x (List.mem_cons_of_mem _ hx)) hstep.1 hstep.2

/-- The final per-stream counter equals the total number of documents
the batches inserted for the stream. -/
theorem foldl_counter_total (cnt : PageBatch → Nat)
    (step : (List (String × Nat) × List MPage) → PageBatch →
      List (String × Nat) × List MPage)
    (hstep : ∀ st b, (step st b).1 = alSet st.1 b.stream (alGetD st.1 b.stream 0 + cnt b))
    (s : String) :
    ∀ (bs : List PageBatch) (st : List (String × Nat) × List MPage),
    alGetD (bs.foldl step st).1 s 0 = alGetD st.1 s 0 + streamTotal cnt bs s := by
  intro bs
  induction bs with
  | nil =>
    intro st
    simp [streamTotal]
  | cons b rest ih =>
    intro st
    rw [List.foldl_cons, ih, hstep]
    by_cases hb : b.stream = s
    · rw [hb, alGetD_alSet_self]
      simp [streamTotal, hb]
      omega
    · rw [alGetD_alSet_ne _ _ _ _ _ (fun h => hb h.symm)]
      simp [streamTotal, hb]

/-- From the tiling invariant: a point is inside `[0, N)` exactly when
exactly one of the stream's pages covers it. -/
theorem coverage_iff_of_inv (coll : List MPage) (s : String) (N : Nat) (n : Int)
    (hcov : covers (streamPages s coll) 0 (N : Int)) :
    (0 ≤ n ∧ n < (N : Int)) ↔
    ∃! p : MPage, (p ∈ coll ∧ p.stream = s) ∧ p.first_index ≤ n ∧ n ≤ p.last_index := by
  constructor
  · rintro ⟨h0, hN⟩
    obtain ⟨p, ⟨hp, hpf, hpl⟩, huniq⟩ :=
      covers_cover_unique (streamPages s coll) 0 (N : Int) n hcov h0 hN
    refine ⟨p, ⟨mem_streamPages.mp hp, hpf, hpl⟩, ?_⟩
    rintro q ⟨⟨hq1, hq2⟩, hqf, hql⟩
    exact huniq q ⟨mem_streamPages.mpr ⟨hq1, hq2⟩, hqf, hql⟩
  · rintro ⟨p, ⟨⟨hp1, hp2⟩, hpf, hpl⟩, -⟩
    have hb := covers_bounds (streamPages s coll) 0 (N : Int) hcov p
      (mem_streamPages.mpr ⟨hp1, hp2⟩)
    omega

/-- Claim C2: for every stream, after any sequence of page-writer
batches (each contributing `count ≥ 1` documents and advancing the
per-stream counter by `count`, the update taking `first_index` to the
minimum of its current value and the pre-batch counter and
`last_index` to the maximum of its current value and the post-batch
counter minus one), the `[first_index, last_index]` ranges over the
stream's event pages exactly cover `0..N-1` with no gaps and no
overlaps, where `N` is the total number of documents inserted for the
stream — and likewise for datum pages. -/
theorem page_index_ranges_partition (P : Nat) (ebs dbs : List PageBatch)
    (s : String) (n m : Int)
    (hev : ∀ b ∈ ebs, 1 ≤ eventBatchCount b)
    (hda : ∀ b ∈ dbs, 1 ≤ datumBatchCount b) :
    ((0 ≤ n ∧ n < (streamTotal eventBatchCount ebs s : Int)) ↔
      ∃! p : MPage, (p ∈ (runEventBatches P ebs).2 ∧ p.stream = s) ∧
        p.first_index ≤ n ∧ n ≤ p.last_index) ∧
    ((0 ≤ m ∧ m < (streamTotal datumBatchCount dbs s : Int)) ↔
      ∃! p : MPage, (p ∈ (runDatumBatches P dbs).2 ∧ p.stream = s) ∧
        p.first_index ≤ m ∧ m ≤ p.last_index) := by
  have hinit_cov : covers (streamPages s ([] : List MPage)) 0
      ((alGetD ([] : List (String × Nat)) s 0 : Nat) : Int) := by
    simp [streamPages, alGetD, alGet, covers]
  have hinit_cl : closedInit P (streamPages s ([] : List MPage)) := trivial
  constructor
  · have hinv := runEventBatches_stream_inv P s ebs ([], []) hev hinit_cov hinit_cl
    have htot := foldl_counter_total eventBatchCount (stepEventBatch P)
      (fun st b => rfl) s ebs ([], [])
    have hN : alGetD (runEventBatches P ebs).1 s 0 = streamTotal eventBatchCount ebs s := by
      rw [show runEventBatches P ebs = ebs.foldl (stepEventBatch P) ([], []) from rfl, htot]
      simp [alGetD, alGet]
    have hcov := hinv.1
    rw [show ebs.foldl (stepEventBatch P) ([], []) = runEventBatches P ebs from rfl, hN] at hcov
    exact coverage_iff_of_inv (runEventBatches P ebs).2 s _ n hcov
  · have hinv := runDatumBatches_stream_inv P s dbs ([], []) hda hinit_cov hinit_cl
    have htot := foldl_counter_total datumBatchCount (stepDatumBatch P)
      (fun st b => rfl) s dbs ([], [])
    have hN : alGetD (runDatumBatches P dbs).1 s 0 = streamTotal datumBatchCount dbs s := by
      rw [show runDatumBatches P dbs = dbs.foldl (stepDatumBatch P) ([], []) from rfl, htot]
      simp [alGetD, alGet]
    have hcov := hinv.1
    rw [show dbs.foldl (stepDatumBatch P) ([], []) = runDatumBatches P dbs from rfl, hN] at hcov
    exact coverage_iff_of_inv (runDatumBatches P dbs).2 s _ m hcov

/-- A two-document event batch, a three-document event batch and a
one-document datum batch, all for stream `d1`. -/
def ebatch1 : PageBatch :=
  { stream := "d1",
    content := { arrays := [("seq_num", [.leaf "1", .leaf "2"]),
                            ("uid", [.leaf "u1", .leaf "u2"]),
                            ("time", [.leaf "t1", .leaf "t2"])] },
    size := 120 }

def ebatch2 : PageBatch :=
  { stream := "d1",
    content := { arrays := [("seq_num", [.leaf "3", .leaf "4", .leaf "5"]),
                            ("uid", [.leaf "u3", .leaf "u4", .leaf "u5"]),
                            ("time", [.leaf "t3", .leaf "t4", .leaf "t5"])] },
    size := 180 }

def dbatch1 : PageBatch :=
  { stream := "d1",
    content := { arrays := [("datum_id", [.leaf "dd1"])] },
    size := 40 }

/-- Witness for C2 at concrete batch sequences and index points. -/
theorem page_index_ranges_partition_witness :
    ((0 ≤ (3 : Int) ∧ (3 : Int) < (streamTotal eventBatchCount [ebatch1, ebatch2] "d1" : Int)) ↔
      ∃! p : MPage, (p ∈ (runEventBatches 150 [ebatch1, ebatch2]).2 ∧ p.stream = "d1") ∧
        p.first_index ≤ 3 ∧ 3 ≤ p.last_index) ∧
    ((0 ≤ (0 : Int) ∧ (0 : Int) < (streamTotal datumBatchCount [dbatch1] "d1" : Int)) ↔
      ∃! p : MPage, (p ∈ (runDatumBatches 150 [dbatch1]).2 ∧ p.stream = "d1") ∧
        p.first_index ≤ 0 ∧ 0 ≤ p.last_index) :=
  ⟨(page_index_ranges_partition 150 [ebatch1, ebatch2] [dbatch1] "d1" 3 0
      (by decide) (by decide)).1,
   (page_index_ranges_partition 150 [ebatch1, ebatch2] [dbatch1] "d1" 3 0
      (by decide) (by decide)).2⟩

/-! ## Freeze protocol theorem (C1) -/

/-- A drained, error-free `freeze` call runs the copy-verify-delete
step on the finalized volatile store. -/
theorem freeze_reaches_copy (s : SState) (uid : Option String)
    (hw : s.worker_error = none)
    (hq1 : s.event_queue = []) (hq2 : s.datum_queue = [])
    (he : s.event_embedder.empty = true) (hd : s.datum_embedder.empty = true) :
    freeze s uid = ((freezeCopy (freezeVolPrepared s) s.permanent uid).1,
      { s with frozen := true,
               volatile := (freezeCopy (freezeVolPrepared s) s.permanent uid).2.1,
               permanent := (freezeCopy (freezeVolPrepared s) s.permanent uid).2.2 }) := by
  simp [freeze, freezeVolPrepared, hw, hq1, hq2, he, hd]

/-- Claim C1: if during `freeze(run_uid)` the run reconstructed from
the permanent store differs from the run reconstructed from the
volatile store, freeze raises a fatal data-integrity error (`IOError`)
and deletes nothing from the volatile store: every header, event-page
and datum-page document present in the volatile store before the
comparison is still present afterwards. -/
theorem freeze_mismatch_preserves_volatile (s : SState) (uid : Option String)
    (hw : s.worker_error = none)
    (hq1 : s.event_queue = []) (hq2 : s.datum_queue = [])
    (he : s.event_embedder.empty = true) (hd : s.datum_embedder.empty = true)
    (hm : freezeMismatch (freezeVolPrepared s) s.permanent uid = true) :
    (freeze s uid).1 = some PyErr.ioError ∧
    (freeze s uid).2.volatile = freezeVolPrepared s ∧
    (∀ h1 ∈ (freezeVolPrepared s).header, h1 ∈ (freeze s uid).2.volatile.header) ∧
    (∀ p ∈ (freezeVolPrepared s).event, p ∈ (freeze s uid).2.volatile.event) ∧
    (∀ p ∈ (freezeVolPrepared s).datum, p ∈ (freeze s uid).2.volatile.datum) := by
  unfold freezeMismatch at hm
  rcases hv : getRun (freezeVolPrepared s) uid with e | vr
  · rw [hv] at hm
    simp at hm
  · rw [hv] at hm
    dsimp only at hm
    rcases hp : getRun (insertRun s.permanent vr) uid with e | pr
    · rw [hp] at hm
      simp at hm
    · rw [hp] at hm
      simp at hm
      have hcopy : freezeCopy (freezeVolPrepared s) s.permanent uid
          = (some .ioError, freezeVolPrepared s, insertRun s.permanent vr) := by
        simp [freezeCopy, hv, hp, hm]
      have hstep := freeze_reaches_copy s uid hw hq1 hq2 he hd
      rw [hstep, hcopy]
      exact ⟨rfl, rfl, fun h1 hmem => hmem, fun p hmem => hmem, fun p hmem => hmem⟩

/-- `stBase` with a permanent store already holding a conflicting
header for the same run id, so the post-copy reconstruction differs. -/
def stMismatch : SState :=
  { stBase with
      permanent := { header := [{ run_id := some "run1", fields := [] }],
                     event := [], datum := [] } }

/-- Witness for C1: freezing `stMismatch` raises the integrity error
and leaves the volatile store exactly as prepared. -/
theorem freeze_mismatch_preserves_volatile_witness :
    (freeze stMismatch (some "run1")).1 = some PyErr.ioError ∧
    (freeze stMismatch (some "run1")).2.volatile = freezeVolPrepared stMismatch :=
  ⟨(freeze_mismatch_preserves_volatile stMismatch (some "run1")
      rfl rfl rfl rfl rfl (by decide)).1,
   (freeze_mismatch_preserves_volatile stMismatch (some "run1")
      rfl rfl rfl rfl rfl (by decide)).2.1⟩

end SuitcaseMongo
